import Mathlib

/-!
Verification of `@poppinss/module-methods-extractor` (src/src/Extractor.ts).

The TypeScript AST shapes the extractor inspects are embedded as inductive
types; every function of `Extractor.ts` is translated one-to-one.  The
external TypeScript parser (`ts.createSourceFile`) is out of scope and is
passed in as a parameter producing a `SourceFile`; the external QuickLRU
cache is modelled as an association list queried exactly the way the code
queries it.
-/

namespace ModuleMethodsExtractor

/-- Modifier keywords that can decorate a declaration or a class member
(`ts.SyntaxKind.ExportKeyword`, `DefaultKeyword`, `PrivateKeyword`,
`ProtectedKeyword`, ...). -/
inductive Modifier where
  | exportKw
  | defaultKw
  | privateKw
  | protectedKw
  | publicKw
  | staticKw
  | asyncKw
  | abstractKw
  | readonlyKw
  deriving DecidableEq, Repr

/-- A member/property name (`ts.PropertyName`): an identifier, a string or
numeric literal, or a computed name.  `ts.isIdentifier` holds exactly for
the `ident` constructor. -/
inductive MemberName where
  | ident (text : String)
  | stringLit (text : String)
  | numericLit (value : Nat)
  | computed
  deriving DecidableEq, Repr

/-- A class member or object-literal member.  `pos` is the member's start
offset in the source text (what `member.getStart(sourceFile)` returns).
`ts.isMethodDeclaration` holds exactly for the `methodDecl` constructor:
constructors, property declarations (fields), get/set accessors, property
assignments, shorthand properties and spreads are distinct node kinds. -/
inductive Member where
  | methodDecl (name : MemberName) (modifiers : List Modifier) (pos : Nat)
  | constructorDecl (pos : Nat)
  | propertyDecl (name : MemberName) (modifiers : List Modifier) (pos : Nat)
  | getAccessor (name : MemberName) (modifiers : List Modifier) (pos : Nat)
  | setAccessor (name : MemberName) (modifiers : List Modifier) (pos : Nat)
  | propertyAssignment (name : MemberName) (pos : Nat)
  | shorthandPropertyAssignment (text : String) (pos : Nat)
  | spreadAssignment (pos : Nat)
  deriving DecidableEq, Repr

/-- The data of a `ts.ClassDeclaration`: optional name, modifiers,
members, start offset. -/
structure ClassDeclData where
  name : Option String
  modifiers : List Modifier
  members : List Member
  pos : Nat
  deriving DecidableEq, Repr

/-- Expressions (`ts.Expression`), restricted to the node kinds the
extractor distinguishes; every other expression kind is collapsed into
constructors the code treats uniformly (none of its guards match them).
`propAccess` is a property access whose `name` is an identifier;
`propAccessPrivate` one whose `name` is a private identifier.  `binary`
is any `ts.BinaryExpression` (the code never inspects the operator, so it
is carried verbatim as a string). -/
inductive Expr where
  | ident (text : String)
  | propAccess (obj : Expr) (name : String)
  | propAccessPrivate (obj : Expr) (name : String)
  | binary (left : Expr) (op : String) (right : Expr)
  | classExpr (name : Option String) (members : List Member)
  | objectLit (props : List Member)
  | funcExpr
  | arrowFunc
  | numLit (value : Nat)
  | strLit (value : String)
  | arrayLit
  | nullLit
  deriving DecidableEq, Repr

/-- A variable declaration's binding name (`ts.BindingName`):
`ts.isIdentifier` holds exactly for `ident`. -/
inductive BindingName where
  | ident (text : String)
  | bindingPattern
  deriving DecidableEq, Repr

/-- One declaration inside a variable statement's declaration list. -/
structure VarDeclData where
  name : BindingName
  initializer : Option Expr
  deriving DecidableEq, Repr

/-- Top-level statements (`ts.Statement`), restricted to the node kinds the
extractor distinguishes.  `exportAssignment` is `export default <expr>` /
`export = <expr>`; `exportDecl` is a named `export ..` declaration;
statement kinds the code never matches are collapsed into `emptyStmt`. -/
inductive Stmt where
  | exprStmt (e : Expr)
  | classDecl (d : ClassDeclData)
  | exportAssignment (e : Expr)
  | varStmt (modifiers : List Modifier) (declarations : List VarDeclData)
  | funcDecl (name : Option String) (modifiers : List Modifier)
  | importDecl
  | exportDecl
  | emptyStmt
  deriving DecidableEq, Repr

/-- A parsed module (`ts.SourceFile`): the ordered top-level statements and
the file's own position-to-line mapping (`getLineAndCharacterOfPosition`,
0-based line). -/
structure SourceFile where
  statements : List Stmt
  lineOf : Nat → Nat

/-- One entry of `ExtractorOutput.methods` (contracts.ts). -/
structure MethodRecord where
  name : String
  lineno : Nat
  deriving DecidableEq, Repr

/-- The `kind` field of `ExtractorOutput`: the union type
`'class' | 'object'` of contracts.ts. -/
inductive ResultKind where
  | classKind
  | objectKind
  deriving DecidableEq, Repr

/-- `ExtractorOutput` of contracts.ts. -/
structure ExtractorOutput where
  kind : ResultKind
  methods : List MethodRecord
  deriving DecidableEq, Repr

/-- `ExtractorOptions` of contracts.ts (`scriptTarget` is the numeric
`ts.ScriptTarget` enum value; `ES2018 = 5`). -/
structure ExtractorOptions where
  filename : String
  scriptTarget : Nat
  deriving DecidableEq, Repr

/-- `Partial<ExtractorOptions>`: both fields optional. -/
structure PartialOptions where
  filename : Option String := none
  scriptTarget : Option Nat := none
  deriving DecidableEq, Repr

/-- The export candidate flowing through `extract`: the TypeScript code
types it `ts.Expression | ts.ClassDeclaration | null`, but the older
implementation can also hand back an arbitrary statement node (the
`externalModuleIndicator`), so the statement arm carries a full `Stmt`. -/
inductive Candidate where
  | expr (e : Expr)
  | stmt (s : Stmt)
  deriving DecidableEq, Repr

/-- `findCommonJsExportExpression`: if the statement is an expression
statement wrapping a binary expression whose left side is the property
access `module.exports` or the bare identifier `exports`, return the
right-hand side. -/
def findCommonJsExportExpression : Stmt → Option Expr
  | .exprStmt (.binary left _op right) =>
    match left with
    | .propAccess (.ident obj) name =>
      if obj = "module" ∧ name = "exports" then some right else none
    | .ident t => if t = "exports" then some right else none
    | _ => none
  | _ => none

/-- `findEsmExportExpression`: an export-assignment statement yields its
inner expression; a class declaration carrying a `default` modifier yields
the class declaration itself. -/
def findEsmExportExpression : Stmt → Option Candidate
  | .exportAssignment e => some (.expr e)
  | .classDecl d =>
    if d.modifiers.any (· = .defaultKw) then some (.stmt (.classDecl d)) else none
  | _ => none

/-- One iteration of the `getExportExpression` loop body:
`findCommonJsExportExpression(statement) || findEsmExportExpression(statement)`. -/
def matchStatement (s : Stmt) : Option Candidate :=
  match findCommonJsExportExpression s with
  | some e => some (.expr e)
  | none => findEsmExportExpression s

/-- The statement loop of `getExportExpression`: first match wins. -/
def getExportExpressionAux : List Stmt → Option Candidate
  | [] => none
  | s :: rest =>
    match matchStatement s with
    | some c => some c
    | none => getExportExpressionAux rest

/-- `getExportExpression` (current implementation): scan the top-level
statements in order, testing the CommonJS matcher then the ESM matcher on
each, and stop at the first hit. -/
def getExportExpression (source : SourceFile) : Option Candidate :=
  getExportExpressionAux source.statements

/-- `ts.isIdentifier(declaration.name) && declaration.name.text === identifier`. -/
def varDeclMatches (identifier : String) (d : VarDeclData) : Bool :=
  match d.name with
  | .ident t => t = identifier
  | .bindingPattern => false

/-- The statement loop of `resolveIdentifier`.  A class declaration whose
name equals the identifier is returned; a variable statement containing a
matching declaration returns that declaration's initializer (`null` when
uninitialized — and the scan stops there, it does not continue). -/
def resolveIdentifierAux (identifier : String) : List Stmt → Option Candidate
  | [] => none
  | child :: rest =>
    match child with
    | .classDecl d =>
      if d.name = some identifier then some (.stmt (.classDecl d))
      else resolveIdentifierAux identifier rest
    | .varStmt _mods decls =>
      match decls.find? (varDeclMatches identifier) with
      | some d =>
        match d.initializer with
        | some init => some (.expr init)
        | none => none
      | none => resolveIdentifierAux identifier rest
    | _ => resolveIdentifierAux identifier rest

/-- `resolveIdentifier`: scan all top-level statements for one that binds
the given name. -/
def resolveIdentifier (sourceFile : SourceFile) (identifier : String) : Option Candidate :=
  resolveIdentifierAux identifier sourceFile.statements

/-- `isPublicMethod`: true when the modifier list has no
`private`/`protected` keyword (an absent modifier list is the empty
list). -/
def isPublicMethod (modifiers : List Modifier) : Bool :=
  !(modifiers.any fun m => m = .privateKw || m = .protectedKw)

/-- The filter-and-map body of `extractClassMethods` on one member:
`ts.isMethodDeclaration(member) && member.name && ts.isIdentifier(member.name)
&& this.isPublicMethod(member)`, then
`{ name: member.name.text, lineno: line(member.getStart()) + 1 }`. -/
def classMethodRecord (sourceFile : SourceFile) : Member → Option MethodRecord
  | .methodDecl (.ident t) mods p =>
    if isPublicMethod mods then some ⟨t, sourceFile.lineOf p + 1⟩ else none
  | _ => none

/-- `extractClassMethods` on the class's member list. -/
def extractClassMethods (sourceFile : SourceFile) (members : List Member) : List MethodRecord :=
  members.filterMap (classMethodRecord sourceFile)

/-- The filter-and-map body of `extractObjectLiteralMethods` on one
property: same shape test, but no visibility check. -/
def objectMethodRecord (sourceFile : SourceFile) : Member → Option MethodRecord
  | .methodDecl (.ident t) _mods p => some ⟨t, sourceFile.lineOf p + 1⟩
  | _ => none

/-- `extractObjectLiteralMethods` on the object literal's property list. -/
def extractObjectLiteralMethods (sourceFile : SourceFile) (props : List Member) : List MethodRecord :=
  props.filterMap (objectMethodRecord sourceFile)

/-- `findBinaryExpressionBranch`, called on a binary expression with parts
`left`/`op`/`right` and the current `level`.  Note the source recurses with
`level++` (post-increment), which passes the *original* `level` to the
recursive call, so the value observed by the `level === 3` test never
changes from the value the first call received. -/
def findBinaryExpressionBranch (left : Expr) (op : String) (right : Expr) (level : Nat) :
    Option Expr :=
  if level = 3 then none
  else
    match right with
    | .binary l o r => findBinaryExpressionBranch l o r level
    | _ => some right

/-- `normalizeOptions`: fill in the defaults
`filename: 'anonymous'`, `scriptTarget: ts.ScriptTarget.ES2018` (= 5). -/
def normalizeOptions : Option PartialOptions → ExtractorOptions
  | none => ⟨"anonymous", 5⟩
  | some o => ⟨o.filename.getD "anonymous", o.scriptTarget.getD 5⟩

/-- `createSourceFile`: the surrounding `try/catch` converts a parser
fault into `null`.  The external parser is a parameter that may fault
(`Except`); the catch maps the fault to `none`. -/
def createSourceFile (parseRaw : ExtractorOptions → String → Except String SourceFile)
    (contents : String) (options : ExtractorOptions) : Option SourceFile :=
  match parseRaw options contents with
  | .ok sf => some sf
  | .error _ => none

/-- Steps 4–6 of `extract` applied to the candidate produced by the export
locator: unwrap an export-assignment node, resolve a bare identifier once,
then unwind a binary (chained-assignment) expression. -/
def pipelineFrom (sourceFile : SourceFile) (c0 : Option Candidate) : Option Candidate :=
  let c1 : Option Candidate :=
    match c0 with
    | some (.stmt (.exportAssignment e)) => some (.expr e)
    | other => other
  let c2 : Option Candidate :=
    match c1 with
    | some (.expr (.ident t)) => resolveIdentifier sourceFile t
    | other => other
  match c2 with
  | some (.expr (.binary l o r)) => (findBinaryExpressionBranch l o r 0).map Candidate.expr
  | other => other

/-- The final export candidate `extract` tests against the class/object
shapes, for the current implementation. -/
def finalCandidate (sourceFile : SourceFile) : Option Candidate :=
  pipelineFrom sourceFile (getExportExpression sourceFile)

/-- The class/object dispatch at the end of `extract`: a class expression
or class declaration yields `kind: 'class'`, an object literal yields
`kind: 'object'`, anything else yields `null`. -/
def candidateOutput (sourceFile : SourceFile) : Candidate → Option ExtractorOutput
  | .expr (.classExpr _ members) => some ⟨.classKind, extractClassMethods sourceFile members⟩
  | .stmt (.classDecl d) => some ⟨.classKind, extractClassMethods sourceFile d.members⟩
  | .expr (.objectLit props) => some ⟨.objectKind, extractObjectLiteralMethods sourceFile props⟩
  | _ => none

/-- `extract` restricted to an already-parsed source file (everything after
the cache lookup and parse). -/
def extractOfSourceFile (sourceFile : SourceFile) : Option ExtractorOutput :=
  match finalCandidate sourceFile with
  | none => none
  | some c => candidateOutput sourceFile c

/-- The result cache (external QuickLRU, `quick-lru` package), modelled as
an association list keyed by the trimmed source text.  Eviction only ever
removes entries, so every reachable cache state is covered by quantifying
over states satisfying the faithfulness invariant below. -/
abbrev Cache := List (String × Option ExtractorOutput)

/-- `cache.has(src)` / `cache.get(src)` combined: the stored value for the
key, when present. -/
def cacheGet (cache : Cache) (key : String) : Option (Option ExtractorOutput) :=
  (cache.find? (fun entry => entry.1 = key)).map (fun entry => entry.2)

/-- `cache.set(src, value)`. -/
def cacheSet (cache : Cache) (key : String) (value : Option ExtractorOutput) : Cache :=
  (key, value) :: cache

/-- `extract(source, options?)`: trim, normalize options, consult the
cache, parse (`null` on parser fault), run the candidate pipeline and the
class/object dispatch, caching the result at every return point except the
final fall-through `return null` (which the source does not cache). -/
def extract (parseRaw : ExtractorOptions → String → Except String SourceFile)
    (cache : Cache) (source : String) (options : Option PartialOptions) :
    Option ExtractorOutput × Cache :=
  match cacheGet cache source.trim with
  | some v => (v, cache)
  | none =>
    match createSourceFile parseRaw source.trim (normalizeOptions options) with
    | none => (none, cacheSet cache source.trim none)
    | some sourceFile =>
      match finalCandidate sourceFile with
      | none => (none, cacheSet cache source.trim none)
      | some c =>
        match candidateOutput sourceFile c with
        | some out => (some out, cacheSet cache source.trim (some out))
        | none => (none, cache)

/-! ### Older implementation (second `Extractor` class in the file) -/

/-- Modelled from the external TypeScript parser: a statement that makes
the file an external module (`isAnExternalModuleIndicator`): an
import/export declaration, an export assignment, or a declaration carrying
an `export` modifier. -/
def isExternalModuleIndicatorStmt : Stmt → Bool
  | .classDecl d => d.modifiers.any (· = .exportKw)
  | .varStmt mods _ => mods.any (· = .exportKw)
  | .funcDecl _ mods => mods.any (· = .exportKw)
  | .exportAssignment _ => true
  | .exportDecl => true
  | .importDecl => true
  | _ => false

/-- Modelled from the external TypeScript parser: the
`externalModuleIndicator` field of a parsed source file is the first
statement that marks the file as an external module, if any. -/
def externalModuleIndicator (sourceFile : SourceFile) : Option Stmt :=
  sourceFile.statements.find? isExternalModuleIndicatorStmt

/-- The CommonJS-only statement loop of the older `_getExportExpression`. -/
def oldScanCommonJs : List Stmt → Option Candidate
  | [] => none
  | s :: rest =>
    match findCommonJsExportExpression s with
    | some e => some (.expr e)
    | none => oldScanCommonJs rest

/-- `_getExportExpression` (older implementation): return the module's
`externalModuleIndicator` node right away when present, else scan the
statements for a CommonJS export. -/
def oldGetExportExpression (sourceFile : SourceFile) : Option Candidate :=
  match externalModuleIndicator sourceFile with
  | some s => some (.stmt s)
  | none => oldScanCommonJs sourceFile.statements

/-- The final candidate of the older `_extract` (its steps after the
locator are textually identical to the current implementation's). -/
def oldFinalCandidate (sourceFile : SourceFile) : Option Candidate :=
  pipelineFrom sourceFile (oldGetExportExpression sourceFile)

/-- The older `_extract` restricted to an already-parsed source file. -/
def oldExtractOfSourceFile (sourceFile : SourceFile) : Option ExtractorOutput :=
  match oldFinalCandidate sourceFile with
  | none => none
  | some c => candidateOutput sourceFile c

/-! ### Auxiliary definitions used only in theorem statements -/

/-- Fuel-indexed general-recursive reading of `findBinaryExpressionBranch`:
`none` means the fuel ran out before the recursion returned. -/
def findBinaryExpressionBranchFuel (fuel : Nat) (left : Expr) (op : String)
    (right : Expr) (level : Nat) : Option (Option Expr) :=
  match fuel with
  | 0 => none
  | fuel' + 1 =>
    if level = 3 then some none
    else
      match right with
      | .binary l o r => findBinaryExpressionBranchFuel fuel' l o r level
      | _ => some (some right)

/-- Length of the chain of right children of nested binary expressions:
the number of recursive calls the unwinder makes when handed this
expression as the right-hand side. -/
def rightChainLength : Expr → Nat
  | .binary _ _ r => rightChainLength r + 1
  | _ => 0

/-- A candidate that is a class declaration or a class expression. -/
def isClassLikeCandidate : Candidate → Bool
  | .expr (.classExpr _ _) => true
  | .stmt (.classDecl _) => true
  | _ => false

/-- A candidate that is an object literal. -/
def isObjectLiteralCandidate : Candidate → Bool
  | .expr (.objectLit _) => true
  | _ => false

/-- The member list of a class-like or object-literal candidate (empty for
any other candidate). -/
def candidateMembers : Candidate → List Member
  | .expr (.classExpr _ members) => members
  | .stmt (.classDecl d) => d.members
  | .expr (.objectLit props) => props
  | _ => []

/-- The start offset of a member. -/
def memberPos : Member → Nat
  | .methodDecl _ _ p => p
  | .constructorDecl p => p
  | .propertyDecl _ _ p => p
  | .getAccessor _ _ p => p
  | .setAccessor _ _ p => p
  | .propertyAssignment _ p => p
  | .shorthandPropertyAssignment _ p => p
  | .spreadAssignment p => p

/-- Whether a top-level statement binds the given name in the sense of
`resolveIdentifier`: a class declaration with that name, or a variable
statement with a declaration bound to that name. -/
def stmtDefines (identifier : String) : Stmt → Bool
  | .classDecl d => d.name = some identifier
  | .varStmt _ decls => decls.any (varDeclMatches identifier)
  | _ => false

/-- What the resolver yields from the first statement that binds the name:
the class declaration itself, or the matching variable declaration's
initializer (`none` when uninitialized). -/
def stmtResolution (identifier : String) : Stmt → Option Candidate
  | .classDecl d => some (.stmt (.classDecl d))
  | .varStmt _ decls =>
    match decls.find? (varDeclMatches identifier) with
    | some d => d.initializer.map Candidate.expr
    | none => none
  | _ => none

/-- The parse-then-extract composition, ignoring the cache: what `extract`
computes for a (already trimmed) source string when it cannot serve the
call from the cache. -/
def pureResult (parseRaw : ExtractorOptions → String → Except String SourceFile)
    (options : ExtractorOptions) (src : String) : Option ExtractorOutput :=
  match createSourceFile parseRaw src options with
  | none => none
  | some sourceFile => extractOfSourceFile sourceFile

/-- Cache faithfulness: every stored entry equals the pure
parse-then-extract result for its key.  Holds for the empty cache and is
preserved by `extract`; eviction only removes entries, so it also covers
every state an LRU bound can produce. -/
def cacheFaithful (parseRaw : ExtractorOptions → String → Except String SourceFile)
    (options : ExtractorOptions) (cache : Cache) : Prop :=
  ∀ k v, (k, v) ∈ cache → v = pureResult parseRaw options k

/-! ### Helper lemmas -/

lemma getExportExpressionAux_eq_none_iff (l : List Stmt) :
    getExportExpressionAux l = none ↔ ∀ s ∈ l, matchStatement s = none := by
  induction l with
  | nil => simp [getExportExpressionAux]
  | cons s rest ih =>
    cases hs : matchStatement s with
    | some c => simp [getExportExpressionAux, hs]
    | none => simp [getExportExpressionAux, hs, ih]

lemma getExportExpressionAux_append_first (pre : List Stmt) (s : Stmt) (post : List Stmt)
    (c : Candidate) (hpre : ∀ t ∈ pre, matchStatement t = none)
    (hs : matchStatement s = some c) :
    getExportExpressionAux (pre ++ s :: post) = some c := by
  induction pre with
  | nil => simp [getExportExpressionAux, hs]
  | cons t rest ih =>
    have ht : matchStatement t = none := hpre t (by simp)
    simpa [getExportExpressionAux, ht] using ih (fun u hu => hpre u (by simp [hu]))

lemma resolveIdentifierAux_cons_not_defines (name : String) (t : Stmt) (rest : List Stmt)
    (h : stmtDefines name t = false) :
    resolveIdentifierAux name (t :: rest) = resolveIdentifierAux name rest := by
  cases t with
  | classDecl d =>
    have hd : ¬ d.name = some name := by simpa [stmtDefines] using h
    simp [resolveIdentifierAux, hd]
  | varStmt mods decls =>
    have hall : ∀ x ∈ decls, ¬ varDeclMatches name x = true := by
      simpa [stmtDefines, List.any_eq_false] using h
    have hfind : decls.find? (varDeclMatches name) = none := List.find?_eq_none.2 hall
    simp [resolveIdentifierAux, hfind]
  | exprStmt e => simp [resolveIdentifierAux]
  | exportAssignment e => simp [resolveIdentifierAux]
  | funcDecl n m => simp [resolveIdentifierAux]
  | importDecl => simp [resolveIdentifierAux]
  | exportDecl => simp [resolveIdentifierAux]
  | emptyStmt => simp [resolveIdentifierAux]

lemma resolveIdentifierAux_cons_defines (name : String) (t : Stmt) (rest : List Stmt)
    (h : stmtDefines name t = true) :
    resolveIdentifierAux name (t :: rest) = stmtResolution name t := by
  cases t with
  | classDecl d =>
    have hd : d.name = some name := by simpa [stmtDefines] using h
    simp [resolveIdentifierAux, stmtResolution, hd]
  | varStmt mods decls =>
    have hex : ∃ x ∈ decls, varDeclMatches name x = true := by
      simpa [stmtDefines, List.any_eq_true] using h
    cases hfind : decls.find? (varDeclMatches name) with
    | none =>
      exact absurd hex (by simpa using List.find?_eq_none.1 hfind)
    | some d =>
      cases hinit : d.initializer with
      | none => simp [resolveIdentifierAux, stmtResolution, hfind, hinit]
      | some init => simp [resolveIdentifierAux, stmtResolution, hfind, hinit]
  | exprStmt e => simp [stmtDefines] at h
  | exportAssignment e => simp [stmtDefines] at h
  | funcDecl n m => simp [stmtDefines] at h
  | importDecl => simp [stmtDefines] at h
  | exportDecl => simp [stmtDefines] at h
  | emptyStmt => simp [stmtDefines] at h

lemma resolveIdentifierAux_eq_none_of_all (name : String) (l : List Stmt)
    (h : ∀ s ∈ l, stmtDefines name s = false) :
    resolveIdentifierAux name l = none := by
  induction l with
  | nil => simp [resolveIdentifierAux]
  | cons t rest ih =>
    rw [resolveIdentifierAux_cons_not_defines name t rest (h t (by simp))]
    exact ih (fun s hs => h s (by simp [hs]))

lemma resolveIdentifierAux_append_first (name : String) (pre : List Stmt) (s : Stmt)
    (post : List Stmt) (hpre : ∀ t ∈ pre, stmtDefines name t = false)
    (hs : stmtDefines name s = true) :
    resolveIdentifierAux name (pre ++ s :: post) = stmtResolution name s := by
  induction pre with
  | nil => simpa using resolveIdentifierAux_cons_defines name s post hs
  | cons t rest ih =>
    rw [List.cons_append,
      resolveIdentifierAux_cons_not_defines name t _ (hpre t (by simp))]
    exact ih (fun u hu => hpre u (by simp [hu]))

/-! ### Claim theorems -/

/-- C2: the export locator scans top-level statements in source order,
testing the CommonJS matcher and the ESM matcher on each statement; the
first matching statement determines the candidate, later matches are
ignored, and with no match the result is `none`. -/
theorem export_locator_first_match_wins (sf : SourceFile) :
    (getExportExpression sf = none ↔ ∀ s ∈ sf.statements, matchStatement s = none)
    ∧ (∀ s, matchStatement s = none ↔
        (findCommonJsExportExpression s = none ∧ findEsmExportExpression s = none))
    ∧ (∀ pre s post c, sf.statements = pre ++ s :: post →
        (∀ t ∈ pre, matchStatement t = none) → matchStatement s = some c →
        getExportExpression sf = some c) := by
  refine ⟨getExportExpressionAux_eq_none_iff sf.statements, ?_, ?_⟩
  · intro s
    unfold matchStatement
    cases h : findCommonJsExportExpression s <;> simp [h]
  · intro pre s post c hsplit hpre hs
    unfold getExportExpression
    rw [hsplit]
    exact getExportExpressionAux_append_first pre s post c hpre hs

/-- Witness for C2 at a concrete module: an empty statement followed by
`export default <object literal>`; the second statement is the first
match. -/
theorem export_locator_first_match_wins_witness :
    (∀ t ∈ [Stmt.emptyStmt], matchStatement t = none)
    ∧ matchStatement (.exportAssignment (.objectLit [])) = some (.expr (.objectLit []))
    ∧ getExportExpression ⟨[Stmt.emptyStmt, .exportAssignment (.objectLit [])], fun _ => 0⟩ =
        some (.expr (.objectLit [])) :=
  ⟨by decide, by decide,
    (export_locator_first_match_wins
      ⟨[Stmt.emptyStmt, .exportAssignment (.objectLit [])], fun _ => 0⟩).2.2
      [Stmt.emptyStmt] _ [] _ rfl (by decide) (by decide)⟩

/-- C3: the identifier resolver scans top-level statements once in source
order, returning the first class declaration with the given name or the
initializer of the first matching variable declaration (`none` when that
declaration has no initializer), and `none` when no statement binds the
name; and resolution is shallow: when the resolved candidate is again an
identifier, the extraction returns `none` rather than resolving again. -/
theorem identifier_resolver_shallow_first_match (sf : SourceFile) (name : String) :
    ((∀ s ∈ sf.statements, stmtDefines name s = false) → resolveIdentifier sf name = none)
    ∧ (∀ pre s post, sf.statements = pre ++ s :: post →
        (∀ t ∈ pre, stmtDefines name t = false) → stmtDefines name s = true →
        resolveIdentifier sf name = stmtResolution name s)
    ∧ (∀ m, getExportExpression sf = some (.expr (.ident name)) →
        resolveIdentifier sf name = some (.expr (.ident m)) →
        extractOfSourceFile sf = none) := by
  refine ⟨?_, ?_, ?_⟩
  · intro h
    exact resolveIdentifierAux_eq_none_of_all name sf.statements h
  · intro pre s post hsplit hpre hs
    unfold resolveIdentifier
    rw [hsplit]
    exact resolveIdentifierAux_append_first name pre s post hpre hs
  · intro m h1 h2
    simp [extractOfSourceFile, finalCandidate, pipelineFrom, h1, h2, candidateOutput]

/-- Witness for C3 at a concrete module: `const Conf = {}` resolves the
name `Conf` to the object-literal initializer of the first (only)
variable declaration. -/
theorem identifier_resolver_shallow_first_match_witness :
    stmtDefines "Conf" (Stmt.varStmt [] [⟨.ident "Conf", some (.objectLit [])⟩]) = true
    ∧ resolveIdentifier ⟨[Stmt.varStmt [] [⟨.ident "Conf", some (.objectLit [])⟩]], fun _ => 0⟩
        "Conf" = stmtResolution "Conf" (Stmt.varStmt [] [⟨.ident "Conf", some (.objectLit [])⟩]) :=
  ⟨by decide,
    (identifier_resolver_shallow_first_match
      ⟨[Stmt.varStmt [] [⟨.ident "Conf", some (.objectLit [])⟩]], fun _ => 0⟩ "Conf").2.1
      [] _ [] rfl (by simp) (by decide)⟩

lemma isPublicMethod_eq_true_iff (mods : List Modifier) :
    isPublicMethod mods = true ↔ Modifier.privateKw ∉ mods ∧ Modifier.protectedKw ∉ mods := by
  simp only [isPublicMethod, Bool.not_eq_true', List.any_eq_false]
  constructor
  · intro h
    refine ⟨fun hm => ?_, fun hm => ?_⟩
    · have hx := h _ hm
      simp at hx
    · have hx := h _ hm
      simp at hx
  · intro h x hx hbad
    simp only [Bool.or_eq_true, decide_eq_true_eq] at hbad
    cases hbad with
    | inl he => exact h.1 (he ▸ hx)
    | inr he => exact h.2 (he ▸ hx)

lemma classMethodRecord_eq_some_iff (sf : SourceFile) (m : Member) (r : MethodRecord) :
    classMethodRecord sf m = some r ↔
      ∃ t mods p, m = Member.methodDecl (.ident t) mods p ∧ Modifier.privateKw ∉ mods ∧
        Modifier.protectedKw ∉ mods ∧ r = ⟨t, sf.lineOf p + 1⟩ := by
  cases m with
  | methodDecl name mods p =>
    cases name with
    | ident t =>
      by_cases hp : isPublicMethod mods = true
      · obtain ⟨h1, h2⟩ := (isPublicMethod_eq_true_iff mods).1 hp
        simp only [classMethodRecord, hp, if_true]
        constructor
        · intro h
          injection h with h
          exact ⟨t, mods, p, rfl, h1, h2, h.symm⟩
        · rintro ⟨t', mods', p', heq, -, -, hr⟩
          obtain ⟨hn, hm, hpp⟩ := Member.methodDecl.inj heq
          obtain rfl : t = t' := MemberName.ident.inj hn
          subst hpp
          rw [hr]
      · have hfalse : isPublicMethod mods = false := by
          simpa [Bool.not_eq_true] using hp
        simp only [classMethodRecord, hfalse, Bool.false_eq_true, if_false]
        constructor
        · intro h
          exact Option.noConfusion h
        · rintro ⟨t', mods', p', heq, h1, h2, hr⟩
          obtain ⟨-, hmods, -⟩ := Member.methodDecl.inj heq
          subst hmods
          exact (hp ((isPublicMethod_eq_true_iff mods).2 ⟨h1, h2⟩)).elim
    | stringLit s => simp [classMethodRecord]
    | numericLit n => simp [classMethodRecord]
    | computed => simp [classMethodRecord]
  | constructorDecl p => simp [classMethodRecord]
  | propertyDecl name mods p => simp [classMethodRecord]
  | getAccessor name mods p => simp [classMethodRecord]
  | setAccessor name mods p => simp [classMethodRecord]
  | propertyAssignment name p => simp [classMethodRecord]
  | shorthandPropertyAssignment t p => simp [classMethodRecord]
  | spreadAssignment p => simp [classMethodRecord]

lemma objectMethodRecord_eq_some_iff (sf : SourceFile) (m : Member) (r : MethodRecord) :
    objectMethodRecord sf m = some r ↔
      ∃ t mods p, m = Member.methodDecl (.ident t) mods p ∧ r = ⟨t, sf.lineOf p + 1⟩ := by
  cases m with
  | methodDecl name mods p =>
    cases name with
    | ident t =>
      simp only [objectMethodRecord]
      constructor
      · intro h
        injection h with h
        exact ⟨t, mods, p, rfl, h.symm⟩
      · rintro ⟨t', mods', p', heq, hr⟩
        obtain ⟨hn, hm, hpp⟩ := Member.methodDecl.inj heq
        obtain rfl : t = t' := MemberName.ident.inj hn
        subst hpp
        rw [hr]
    | stringLit s => simp [objectMethodRecord]
    | numericLit n => simp [objectMethodRecord]
    | computed => simp [objectMethodRecord]
  | constructorDecl p => simp [objectMethodRecord]
  | propertyDecl name mods p => simp [objectMethodRecord]
  | getAccessor name mods p => simp [objectMethodRecord]
  | setAccessor name mods p => simp [objectMethodRecord]
  | propertyAssignment name p => simp [objectMethodRecord]
  | shorthandPropertyAssignment t p => simp [objectMethodRecord]
  | spreadAssignment p => simp [objectMethodRecord]

/-- C4: for a class target the enumerator emits exactly the plain named
method declarations with identifier names that are not marked
private/protected (constructors, fields, accessors, property assignments
and non-identifier names never appear); for an object-literal target it
emits the method-shaped members with identifier names with no visibility
filter. -/
theorem method_enumerator_characterization (sf : SourceFile) :
    (∀ members (r : MethodRecord), r ∈ extractClassMethods sf members ↔
      ∃ t mods p, Member.methodDecl (.ident t) mods p ∈ members
        ∧ Modifier.privateKw ∉ mods ∧ Modifier.protectedKw ∉ mods
        ∧ r = ⟨t, sf.lineOf p + 1⟩)
    ∧ (∀ props (r : MethodRecord), r ∈ extractObjectLiteralMethods sf props ↔
      ∃ t mods p, Member.methodDecl (.ident t) mods p ∈ props
        ∧ r = ⟨t, sf.lineOf p + 1⟩) := by
  constructor
  · intro members r
    rw [extractClassMethods, List.mem_filterMap]
    constructor
    · rintro ⟨m, hm, hsome⟩
      obtain ⟨t, mods, p, rfl, h1, h2, hr⟩ := (classMethodRecord_eq_some_iff sf m r).1 hsome
      exact ⟨t, mods, p, hm, h1, h2, hr⟩
    · rintro ⟨t, mods, p, hm, h1, h2, hr⟩
      exact ⟨Member.methodDecl (.ident t) mods p, hm,
        (classMethodRecord_eq_some_iff sf _ r).2 ⟨t, mods, p, rfl, h1, h2, hr⟩⟩
  · intro props r
    rw [extractObjectLiteralMethods, List.mem_filterMap]
    constructor
    · rintro ⟨m, hm, hsome⟩
      obtain ⟨t, mods, p, rfl, hr⟩ := (objectMethodRecord_eq_some_iff sf m r).1 hsome
      exact ⟨t, mods, p, hm, hr⟩
    · rintro ⟨t, mods, p, hm, hr⟩
      exact ⟨Member.methodDecl (.ident t) mods p, hm,
        (objectMethodRecord_eq_some_iff sf _ r).2 ⟨t, mods, p, rfl, hr⟩⟩

lemma candidateOutput_kind_class (sf : SourceFile) (c : Candidate) (out : ExtractorOutput)
    (h : candidateOutput sf c = some out) :
    (out.kind = .classKind ↔ isClassLikeCandidate c = true)
    ∧ (out.kind = .objectKind ↔ isObjectLiteralCandidate c = true) := by
  unfold candidateOutput at h
  split at h
  · cases h; simp [isClassLikeCandidate, isObjectLiteralCandidate]
  · cases h; simp [isClassLikeCandidate, isObjectLiteralCandidate]
  · cases h; simp [isClassLikeCandidate, isObjectLiteralCandidate]
  · exact Option.noConfusion h

lemma candidateOutput_eq_none (sf : SourceFile) (c : Candidate)
    (h1 : isClassLikeCandidate c = false) (h2 : isObjectLiteralCandidate c = false) :
    candidateOutput sf c = none := by
  unfold candidateOutput
  split <;> simp_all [isClassLikeCandidate, isObjectLiteralCandidate]

/-- C5: when extraction yields a result, its `kind` is `'class'` exactly
when the final resolved candidate is a class declaration/expression and
`'object'` exactly when it is an object literal; no other kinds exist, and
any other final candidate makes the whole extraction return `none`. -/
theorem result_kind_characterization (sf : SourceFile) :
    (∀ out, extractOfSourceFile sf = some out →
      (out.kind = .classKind ∨ out.kind = .objectKind)
      ∧ (out.kind = .classKind ↔
          ∃ c, finalCandidate sf = some c ∧ isClassLikeCandidate c = true)
      ∧ (out.kind = .objectKind ↔
          ∃ c, finalCandidate sf = some c ∧ isObjectLiteralCandidate c = true))
    ∧ (∀ c, finalCandidate sf = some c → isClassLikeCandidate c = false →
        isObjectLiteralCandidate c = false → extractOfSourceFile sf = none) := by
  constructor
  · intro out hout
    cases hfc : finalCandidate sf with
    | none => simp [extractOfSourceFile, hfc] at hout
    | some c =>
      have hout' : candidateOutput sf c = some out := by
        simpa [extractOfSourceFile, hfc] using hout
      have hk := candidateOutput_kind_class sf c out hout'
      refine ⟨?_, ?_, ?_⟩
      · cases hx : out.kind with
        | classKind => exact Or.inl rfl
        | objectKind => exact Or.inr rfl
      · constructor
        · intro h
          exact ⟨c, rfl, hk.1.1 h⟩
        · rintro ⟨c', hc', hcl⟩
          injection hc' with he
          subst he
          exact hk.1.2 hcl
      · constructor
        · intro h
          exact ⟨c, rfl, hk.2.1 h⟩
        · rintro ⟨c', hc', hob⟩
          injection hc' with he
          subst he
          exact hk.2.2 hob
  · intro c hfc h1 h2
    simp [extractOfSourceFile, hfc, candidateOutput_eq_none sf c h1 h2]

/-- Witness for C5 at a concrete module: `export default class UserController`
with one public method produces `kind = 'class'`, and its final candidate
is the class declaration. -/
theorem result_kind_characterization_witness :
    extractOfSourceFile ⟨[Stmt.classDecl ⟨some "UserController", [.exportKw, .defaultKw],
        [.methodDecl (.ident "index") [.publicKw] 40], 0⟩], fun _ => 0⟩ =
      some ⟨.classKind, [⟨"index", 1⟩]⟩
    ∧ (ResultKind.classKind = .classKind ∨ ResultKind.classKind = .objectKind) :=
  ⟨by decide,
    ((result_kind_characterization ⟨[Stmt.classDecl ⟨some "UserController",
      [.exportKw, .defaultKw], [.methodDecl (.ident "index") [.publicKw] 40], 0⟩],
      fun _ => 0⟩).1 ⟨.classKind, [⟨"index", 1⟩]⟩ (by decide)).1⟩

lemma pairwise_filterMap_of_pairwise {α β : Type} (f : α → Option β) (R : β → β → Prop)
    (S : α → α → Prop)
    (hf : ∀ a b x y, S a b → f a = some x → f b = some y → R x y) :
    ∀ l : List α, l.Pairwise S → (l.filterMap f).Pairwise R := by
  intro l
  induction l with
  | nil => intro _; simp
  | cons a tail ih =>
    intro hl
    rw [List.pairwise_cons] at hl
    obtain ⟨ha, htail⟩ := hl
    cases hfa : f a with
    | none => simpa [List.filterMap_cons, hfa] using ih htail
    | some x =>
      rw [List.filterMap_cons]
      simp only [hfa]
      rw [List.pairwise_cons]
      constructor
      · intro y hy
        obtain ⟨b, hb, hfb⟩ := List.mem_filterMap.1 hy
        exact hf a b x y (ha b hb) hfa hfb
      · exact ih htail

lemma classMethodRecord_lineno (sf : SourceFile) (m : Member) (r : MethodRecord)
    (h : classMethodRecord sf m = some r) : r.lineno = sf.lineOf (memberPos m) + 1 := by
  obtain ⟨t, mods, p, rfl, -, -, rfl⟩ := (classMethodRecord_eq_some_iff sf m r).1 h
  rfl

lemma objectMethodRecord_lineno (sf : SourceFile) (m : Member) (r : MethodRecord)
    (h : objectMethodRecord sf m = some r) : r.lineno = sf.lineOf (memberPos m) + 1 := by
  obtain ⟨t, mods, p, rfl, rfl⟩ := (objectMethodRecord_eq_some_iff sf m r).1 h
  rfl

lemma methods_invariant_class (sf : SourceFile) (members : List Member)
    (hmono : ∀ a b, a ≤ b → sf.lineOf a ≤ sf.lineOf b)
    (hsort : members.Pairwise (fun m n => memberPos m ≤ memberPos n)) :
    (∀ r ∈ extractClassMethods sf members, 1 ≤ r.lineno)
    ∧ (extractClassMethods sf members).Pairwise (fun r s => r.lineno ≤ s.lineno) := by
  constructor
  · intro r hr
    obtain ⟨m, hm, hsome⟩ := List.mem_filterMap.1 hr
    rw [classMethodRecord_lineno sf m r hsome]
    omega
  · refine pairwise_filterMap_of_pairwise _ _ (fun m n => memberPos m ≤ memberPos n)
      ?_ members hsort
    intro a b x y hS hfa hfb
    rw [classMethodRecord_lineno sf a x hfa, classMethodRecord_lineno sf b y hfb]
    exact Nat.succ_le_succ (hmono _ _ hS)

lemma methods_invariant_object (sf : SourceFile) (props : List Member)
    (hmono : ∀ a b, a ≤ b → sf.lineOf a ≤ sf.lineOf b)
    (hsort : props.Pairwise (fun m n => memberPos m ≤ memberPos n)) :
    (∀ r ∈ extractObjectLiteralMethods sf props, 1 ≤ r.lineno)
    ∧ (extractObjectLiteralMethods sf props).Pairwise (fun r s => r.lineno ≤ s.lineno) := by
  constructor
  · intro r hr
    obtain ⟨m, hm, hsome⟩ := List.mem_filterMap.1 hr
    rw [objectMethodRecord_lineno sf m r hsome]
    omega
  · refine pairwise_filterMap_of_pairwise _ _ (fun m n => memberPos m ≤ memberPos n)
      ?_ props hsort
    intro a b x y hS hfa hfb
    rw [objectMethodRecord_lineno sf a x hfa, objectMethodRecord_lineno sf b y hfb]
    exact Nat.succ_le_succ (hmono _ _ hS)

/-- C6: when the position-to-line mapping is monotone (it maps source
offsets) and the final candidate's members appear in source order, every
emitted `lineno` is at least 1 and the emitted sequence of `lineno` values
is non-decreasing, for class and object-literal targets alike. -/
theorem lineno_positive_and_monotone (sf : SourceFile) (out : ExtractorOutput)
    (hmono : ∀ a b, a ≤ b → sf.lineOf a ≤ sf.lineOf b)
    (hsorted : ∀ c, finalCandidate sf = some c →
      (candidateMembers c).Pairwise (fun m n => memberPos m ≤ memberPos n))
    (hout : extractOfSourceFile sf = some out) :
    (∀ r ∈ out.methods, 1 ≤ r.lineno)
    ∧ out.methods.Pairwise (fun r s => r.lineno ≤ s.lineno) := by
  cases hfc : finalCandidate sf with
  | none => simp [extractOfSourceFile, hfc] at hout
  | some c =>
    have hout' : candidateOutput sf c = some out := by
      simpa [extractOfSourceFile, hfc] using hout
    have hsort := hsorted c hfc
    unfold candidateOutput at hout'
    split at hout'
    · obtain rfl : out = ⟨.classKind, extractClassMethods sf _⟩ :=
        (Option.some.inj hout').symm
      exact methods_invariant_class sf _ hmono (by simpa [candidateMembers] using hsort)
    · obtain rfl : out = ⟨.classKind, extractClassMethods sf _⟩ :=
        (Option.some.inj hout').symm
      exact methods_invariant_class sf _ hmono (by simpa [candidateMembers] using hsort)
    · obtain rfl : out = ⟨.objectKind, extractObjectLiteralMethods sf _⟩ :=
        (Option.some.inj hout').symm
      exact methods_invariant_object sf _ hmono (by simpa [candidateMembers] using hsort)
    · exact Option.noConfusion hout'

/-- The source file used by the C6 witness: `export default` of an object
literal with two methods at offsets 5 and 20, with the identity line
mapping. -/
def objectPairSourceFile : SourceFile :=
  ⟨[.exportAssignment (.objectLit
    [.methodDecl (.ident "a") [] 5, .methodDecl (.ident "b") [] 20])], fun p => p⟩

/-- Witness for C6 at `objectPairSourceFile`: linenos are 6 and 21 —
positive and non-decreasing. -/
theorem lineno_positive_and_monotone_witness :
    extractOfSourceFile objectPairSourceFile = some ⟨.objectKind, [⟨"a", 6⟩, ⟨"b", 21⟩]⟩
    ∧ (∀ r ∈ (⟨.objectKind, [⟨"a", 6⟩, ⟨"b", 21⟩]⟩ : ExtractorOutput).methods, 1 ≤ r.lineno)
    ∧ (⟨.objectKind, [⟨"a", 6⟩, ⟨"b", 21⟩]⟩ : ExtractorOutput).methods.Pairwise
        (fun r s => r.lineno ≤ s.lineno) :=
  ⟨by decide,
    (lineno_positive_and_monotone objectPairSourceFile ⟨.objectKind, [⟨"a", 6⟩, ⟨"b", 21⟩]⟩
      (fun _ _ h => h)
      (fun c hc => by injection hc with he; subst he; decide) (by decide)).1,
    (lineno_positive_and_monotone objectPairSourceFile ⟨.objectKind, [⟨"a", 6⟩, ⟨"b", 21⟩]⟩
      (fun _ _ h => h)
      (fun c hc => by injection hc with he; subst he; decide) (by decide)).2⟩

lemma cacheGet_faithful {parseRaw : ExtractorOptions → String → Except String SourceFile}
    {opts : ExtractorOptions} {cache : Cache}
    (h : cacheFaithful parseRaw opts cache) (k : String) (v : Option ExtractorOutput)
    (hget : cacheGet cache k = some v) : v = pureResult parseRaw opts k := by
  unfold cacheGet at hget
  cases hfind : cache.find? (fun entry => entry.1 = k) with
  | none =>
    rw [hfind] at hget
    exact Option.noConfusion hget
  | some entry =>
    obtain ⟨k', v'⟩ := entry
    rw [hfind] at hget
    injection hget with he
    have hmem : (k', v') ∈ cache := List.mem_of_find?_eq_some hfind
    have hk : k' = k := by simpa using List.find?_some hfind
    rw [← he, h k' v' hmem, hk]

lemma extract_eq_cache_hit (parseRaw : ExtractorOptions → String → Except String SourceFile)
    (cache : Cache) (source : String) (options : Option PartialOptions)
    (v : Option ExtractorOutput) (hget : cacheGet cache source.trim = some v) :
    extract parseRaw cache source options = (v, cache) := by
  simp only [extract, hget]

lemma extract_eq_parse_fail (parseRaw : ExtractorOptions → String → Except String SourceFile)
    (cache : Cache) (source : String) (options : Option PartialOptions)
    (hget : cacheGet cache source.trim = none)
    (hcs : createSourceFile parseRaw source.trim (normalizeOptions options) = none) :
    extract parseRaw cache source options = (none, cacheSet cache source.trim none) := by
  simp only [extract, hget, hcs]

lemma extract_eq_no_candidate (parseRaw : ExtractorOptions → String → Except String SourceFile)
    (cache : Cache) (source : String) (options : Option PartialOptions)
    (sourceFile : SourceFile) (hget : cacheGet cache source.trim = none)
    (hcs : createSourceFile parseRaw source.trim (normalizeOptions options) = some sourceFile)
    (hfc : finalCandidate sourceFile = none) :
    extract parseRaw cache source options = (none, cacheSet cache source.trim none) := by
  simp only [extract, hget, hcs, hfc]

lemma extract_eq_output (parseRaw : ExtractorOptions → String → Except String SourceFile)
    (cache : Cache) (source : String) (options : Option PartialOptions)
    (sourceFile : SourceFile) (c : Candidate) (out : ExtractorOutput)
    (hget : cacheGet cache source.trim = none)
    (hcs : createSourceFile parseRaw source.trim (normalizeOptions options) = some sourceFile)
    (hfc : finalCandidate sourceFile = some c)
    (hco : candidateOutput sourceFile c = some out) :
    extract parseRaw cache source options = (some out, cacheSet cache source.trim (some out)) := by
  simp only [extract, hget, hcs, hfc, hco]

lemma extract_eq_fallthrough (parseRaw : ExtractorOptions → String → Except String SourceFile)
    (cache : Cache) (source : String) (options : Option PartialOptions)
    (sourceFile : SourceFile) (c : Candidate) (hget : cacheGet cache source.trim = none)
    (hcs : createSourceFile parseRaw source.trim (normalizeOptions options) = some sourceFile)
    (hfc : finalCandidate sourceFile = some c)
    (hco : candidateOutput sourceFile c = none) :
    extract parseRaw cache source options = (none, cache) := by
  simp only [extract, hget, hcs, hfc, hco]

lemma extract_result_and_faithful (parseRaw : ExtractorOptions → String → Except String SourceFile)
    (options : Option PartialOptions) (cache : Cache) (source : String)
    (h : cacheFaithful parseRaw (normalizeOptions options) cache) :
    (extract parseRaw cache source options).1
      = pureResult parseRaw (normalizeOptions options) source.trim
    ∧ cacheFaithful parseRaw (normalizeOptions options)
        (extract parseRaw cache source options).2 := by
  cases hget : cacheGet cache source.trim with
  | some v =>
    rw [extract_eq_cache_hit parseRaw cache source options v hget]
    exact ⟨cacheGet_faithful h _ _ hget, h⟩
  | none =>
    cases hcs : createSourceFile parseRaw source.trim (normalizeOptions options) with
    | none =>
      rw [extract_eq_parse_fail parseRaw cache source options hget hcs]
      refine ⟨by simp [pureResult, hcs], ?_⟩
      intro k v hkv
      rcases List.mem_cons.1 hkv with heq | hmem
      · injection heq with h1 h2
        subst h1
        subst h2
        simp [pureResult, hcs]
      · exact h k v hmem
    | some sourceFile =>
      cases hfc : finalCandidate sourceFile with
      | none =>
        rw [extract_eq_no_candidate parseRaw cache source options sourceFile hget hcs hfc]
        refine ⟨by simp [pureResult, hcs, extractOfSourceFile, hfc], ?_⟩
        intro k v hkv
        rcases List.mem_cons.1 hkv with heq | hmem
        · injection heq with h1 h2
          subst h1
          subst h2
          simp [pureResult, hcs, extractOfSourceFile, hfc]
        · exact h k v hmem
      | some c =>
        cases hco : candidateOutput sourceFile c with
        | some outv =>
          rw [extract_eq_output parseRaw cache source options sourceFile c outv hget hcs hfc hco]
          refine ⟨by simp [pureResult, hcs, extractOfSourceFile, hfc, hco], ?_⟩
          intro k v hkv
          rcases List.mem_cons.1 hkv with heq | hmem
          · injection heq with h1 h2
            subst h1
            subst h2
            simp [pureResult, hcs, extractOfSourceFile, hfc, hco]
          · exact h k v hmem
        | none =>
          rw [extract_eq_fallthrough parseRaw cache source options sourceFile c hget hcs hfc hco]
          exact ⟨by simp [pureResult, hcs, extractOfSourceFile, hfc, hco], h⟩

/-- C7: when parsing the trimmed source faults, `extract` returns `none`
(the `try/catch` around the parser converts the fault into the absent
result instead of propagating it). -/
theorem parse_failure_yields_absent
    (parseRaw : ExtractorOptions → String → Except String SourceFile)
    (options : Option PartialOptions) (cache : Cache) (source msg : String)
    (hc : cacheFaithful parseRaw (normalizeOptions options) cache)
    (hp : parseRaw (normalizeOptions options) source.trim = .error msg) :
    (extract parseRaw cache source options).1 = none := by
  rw [(extract_result_and_faithful parseRaw options cache source hc).1]
  simp [pureResult, createSourceFile, hp]

/-- Witness for C7: a parser that always faults makes `extract` return
`none` on a fresh extractor state. -/
theorem parse_failure_yields_absent_witness :
    cacheFaithful (fun _ _ => Except.error "bad") (normalizeOptions none) ([] : Cache)
    ∧ (fun (_ : ExtractorOptions) (_ : String) =>
        (Except.error "bad" : Except String SourceFile)) (normalizeOptions none)
        ("let x = " : String).trim = Except.error "bad"
    ∧ (extract (fun _ _ => Except.error "bad") ([] : Cache) "let x = " none).1 = none :=
  ⟨fun _ _ hkv => absurd hkv (List.not_mem_nil _), rfl,
    parse_failure_yields_absent (fun _ _ => Except.error "bad") none [] "let x = " "bad"
      (fun _ _ hkv => absurd hkv (List.not_mem_nil _)) rfl⟩

/-- C8: `extract` is deterministic — on any two faithful extractor states
(the same instance called again, a fresh instance, a cache hit or a miss)
the same text and options produce structurally equal results, namely the
pure parse-then-extract result; and the state after the call is faithful
again, so consecutive calls keep agreeing. -/
theorem extract_deterministic
    (parseRaw : ExtractorOptions → String → Except String SourceFile)
    (options : Option PartialOptions) (source : String) (c1 c2 : Cache)
    (h1 : cacheFaithful parseRaw (normalizeOptions options) c1)
    (h2 : cacheFaithful parseRaw (normalizeOptions options) c2) :
    (extract parseRaw c1 source options).1 = (extract parseRaw c2 source options).1
    ∧ (extract parseRaw c1 source options).1
        = pureResult parseRaw (normalizeOptions options) source.trim
    ∧ cacheFaithful parseRaw (normalizeOptions options)
        (extract parseRaw c1 source options).2 := by
  obtain ⟨ha1, ha2⟩ := extract_result_and_faithful parseRaw options c1 source h1
  obtain ⟨hb1, hb2⟩ := extract_result_and_faithful parseRaw options c2 source h2
  exact ⟨ha1.trans hb1.symm, ha1, ha2⟩

/-- Witness for C8: two fresh extractor states and a parser that returns
an empty module agree on the same source text. -/
theorem extract_deterministic_witness :
    cacheFaithful (fun _ _ => Except.ok ⟨[], fun _ => 0⟩) (normalizeOptions none) ([] : Cache)
    ∧ (extract (fun _ _ => Except.ok ⟨[], fun _ => 0⟩) ([] : Cache) "x" none).1
        = (extract (fun _ _ => Except.ok ⟨[], fun _ => 0⟩) ([] : Cache) "x" none).1
    ∧ (extract (fun _ _ => Except.ok ⟨[], fun _ => 0⟩) ([] : Cache) "x" none).1
        = pureResult (fun _ _ => Except.ok ⟨[], fun _ => 0⟩) (normalizeOptions none)
            ("x" : String).trim
    ∧ cacheFaithful (fun _ _ => Except.ok ⟨[], fun _ => 0⟩) (normalizeOptions none)
        (extract (fun _ _ => Except.ok ⟨[], fun _ => 0⟩) ([] : Cache) "x" none).2 :=
  ⟨fun _ _ hkv => absurd hkv (List.not_mem_nil _),
    extract_deterministic (fun _ _ => Except.ok ⟨[], fun _ => 0⟩) none "x" [] []
      (fun _ _ hkv => absurd hkv (List.not_mem_nil _))
      (fun _ _ hkv => absurd hkv (List.not_mem_nil _))⟩

/-- C9: the assignment-chain unwinder terminates on every binary
expression: with fuel exceeding the length of the right-spine of the
expression, the fuel-indexed unwinder returns (it never runs out of fuel)
and agrees with the total function. -/
theorem unwinder_terminates (left : Expr) (op : String) (right : Expr) (level fuel : Nat)
    (h : rightChainLength right < fuel) :
    findBinaryExpressionBranchFuel fuel left op right level
      = some (findBinaryExpressionBranch left op right level) := by
  induction fuel generalizing left op right level with
  | zero => omega
  | succ n ih =>
    rw [findBinaryExpressionBranchFuel.eq_def, findBinaryExpressionBranch.eq_def]
    by_cases hl : level = 3
    · simp [hl]
    · cases right with
      | binary l o r =>
        simpa [hl] using ih l o r level (by simp [rightChainLength] at h; omega)
      | ident t => simp [hl]
      | propAccess o nm => simp [hl]
      | propAccessPrivate o nm => simp [hl]
      | classExpr nm ms => simp [hl]
      | objectLit ps => simp [hl]
      | funcExpr => simp [hl]
      | arrowFunc => simp [hl]
      | numLit n' => simp [hl]
      | strLit s' => simp [hl]
      | arrayLit => simp [hl]
      | nullLit => simp [hl]

/-- Witness for C9: a two-deep chain unwinds within fuel 5. -/
theorem unwinder_terminates_witness :
    rightChainLength (Expr.binary (.ident "b") "=" (.ident "T")) < 5
    ∧ findBinaryExpressionBranchFuel 5 (.ident "a") "="
        (.binary (.ident "b") "=" (.ident "T")) 0
      = some (findBinaryExpressionBranch (.ident "a") "="
          (.binary (.ident "b") "=" (.ident "T")) 0) :=
  ⟨by decide, unwinder_terminates (.ident "a") "=" (.binary (.ident "b") "=" (.ident "T"))
    0 5 (by decide)⟩

/-- A 4-hop assignment chain
`module.exports = a = b = c = class { handle() {} }`. -/
def chainFourSourceFile : SourceFile :=
  ⟨[.exprStmt (.binary (.propAccess (.ident "module") "exports") "="
    (.binary (.ident "a") "="
      (.binary (.ident "b") "="
        (.binary (.ident "c") "="
          (.classExpr none [.methodDecl (.ident "handle") [] 40])))))], fun _ => 0⟩

/-- A 3-hop assignment chain to a named class declared earlier:
`class Target { index() {} }` followed by
`module.exports = a = b = Target`. -/
def chainThreeSourceFile : SourceFile :=
  ⟨[.classDecl ⟨some "Target", [], [.methodDecl (.ident "index") [] 10], 0⟩,
    .exprStmt (.binary (.propAccess (.ident "module") "exports") "="
      (.binary (.ident "a") "=" (.binary (.ident "b") "=" (.ident "Target"))))], fun _ => 0⟩

/-- C1 (evidence of the code bug): the depth cap never fires — a 4-hop
chain to a class expression still resolves (the recursion passes `level++`,
the *old* value of `level`, so the counter never advances), while a 3-hop
chain to a named class yields `none` (identifier resolution runs before
chain unwinding, so the unwound identifier is never resolved).  Both
contradict the documented 3-hop-in / 4-hop-out boundary. -/
theorem chain_depth_cap_divergence :
    extractOfSourceFile chainFourSourceFile = some ⟨.classKind, [⟨"handle", 1⟩]⟩
    ∧ extractOfSourceFile chainThreeSourceFile = none := by
  constructor
  · decide
  · decide

/-- A module with a CommonJS export of an object literal followed by an
`export default` class: the two locator implementations pick different
candidates. -/
def mixedExportsSourceFile : SourceFile :=
  ⟨[.exprStmt (.binary (.propAccess (.ident "module") "exports") "="
      (.objectLit [.methodDecl (.ident "foo") [] 10])),
    .classDecl ⟨some "Y", [.exportKw, .defaultKw],
      [.methodDecl (.ident "bar") [] 50], 30⟩], fun _ => 0⟩

/-- C10 counterexample: on `mixedExportsSourceFile` the current
implementation returns the CommonJS object literal's methods while the
older implementation returns the `externalModuleIndicator` class's
methods — the two extractors disagree. -/
theorem old_new_extractors_disagree :
    extractOfSourceFile mixedExportsSourceFile = some ⟨.objectKind, [⟨"foo", 1⟩]⟩
    ∧ oldExtractOfSourceFile mixedExportsSourceFile = some ⟨.classKind, [⟨"bar", 1⟩]⟩
    ∧ extractOfSourceFile mixedExportsSourceFile
        ≠ oldExtractOfSourceFile mixedExportsSourceFile := by
  refine ⟨by decide, by decide, by decide⟩

lemma scan_agree (l : List Stmt) (h : ∀ s ∈ l, findEsmExportExpression s = none) :
    getExportExpressionAux l = oldScanCommonJs l := by
  induction l with
  | nil => rfl
  | cons s rest ih =>
    have hs : findEsmExportExpression s = none := h s (by simp)
    cases hc : findCommonJsExportExpression s with
    | some e => simp [getExportExpressionAux, oldScanCommonJs, matchStatement, hc]
    | none =>
      simp only [getExportExpressionAux, oldScanCommonJs, matchStatement, hc, hs]
      exact ih (fun u hu => h u (by simp [hu]))

/-- C10 amended: on modules with no ESM import/export constructs (no
statement is an external-module indicator and the ESM matcher never
fires), the two implementations locate the same candidate and produce the
same extraction result. -/
theorem old_new_extractors_agree_without_esm (sf : SourceFile)
    (h : ∀ s ∈ sf.statements,
        isExternalModuleIndicatorStmt s = false ∧ findEsmExportExpression s = none) :
    oldGetExportExpression sf = getExportExpression sf
    ∧ oldExtractOfSourceFile sf = extractOfSourceFile sf := by
  have hind : externalModuleIndicator sf = none :=
    List.find?_eq_none.2 (fun s hs => by simp [(h s hs).1])
  have hget : oldGetExportExpression sf = getExportExpression sf := by
    unfold oldGetExportExpression getExportExpression
    rw [hind]
    exact (scan_agree sf.statements (fun s hs => (h s hs).2)).symm
  refine ⟨hget, ?_⟩
  unfold oldExtractOfSourceFile extractOfSourceFile oldFinalCandidate finalCandidate
  rw [hget]

/-- Witness for the amended C10 on a pure-CommonJS module. -/
theorem old_new_extractors_agree_without_esm_witness :
    (∀ s ∈ ([.exprStmt (.binary (.propAccess (.ident "module") "exports") "="
        (.objectLit [.methodDecl (.ident "foo") [] 10]))] : List Stmt),
      isExternalModuleIndicatorStmt s = false ∧ findEsmExportExpression s = none)
    ∧ oldExtractOfSourceFile ⟨[.exprStmt (.binary (.propAccess (.ident "module") "exports") "="
        (.objectLit [.methodDecl (.ident "foo") [] 10]))], fun _ => 0⟩
      = extractOfSourceFile ⟨[.exprStmt (.binary (.propAccess (.ident "module") "exports") "="
        (.objectLit [.methodDecl (.ident "foo") [] 10]))], fun _ => 0⟩ :=
  ⟨by decide,
    (old_new_extractors_agree_without_esm
      ⟨[.exprStmt (.binary (.propAccess (.ident "module") "exports") "="
        (.objectLit [.methodDecl (.ident "foo") [] 10]))], fun _ => 0⟩ (by decide)).2⟩

end ModuleMethodsExtractor

